import Mathlib

/-!
Shallow embedding of `arsenal_gear.dist_funcs.ProbDistFunc`
(src/arsenal_gear/dist_funcs/__init__.py).

Modelling choices:
* Machine floats are modelled by exact rationals `ℚ`.  Every numeric literal
  occurring in the claims (0, 1, 2, 0.5, 1.5, 2.5, ...) is an exactly
  representable dyadic, and all the arithmetic the code performs on them
  (subtraction, comparison, division by a nonzero value) is exact in IEEE
  double precision, so `ℚ` is faithful for those paths.
* The one float behaviour `ℚ` cannot mirror is division by a zero scalar:
  numpy produces `inf` / `nan` (a warning, not an exception).  `FloatVal`
  separates finite results from that non-finite outcome, and `fdiv` is the
  elementwise `p / self.norm` with that semantics.
* numpy operations that can raise are modelled in `Option`: `p[mask] = 0`
  raises `IndexError` when the boolean mask and `p` have different lengths
  (possible only when a subclass `prob` override returns an array of the
  wrong shape); `none` models that raised exception.
* Subclass polymorphism (`prob` is overridable, cf. the docstring saying the
  base class returns `np.ones`) is modelled by making `prob` a function-valued
  field; `ProbDistFunc.init` (the base `__init__`) fills in the base-class
  implementation `baseProb`.
-/

namespace ArsenalGear

/-- A double value: either an exact finite rational, or a non-finite value
(`inf`, `-inf` or `nan`, which this development does not need to tell apart:
each arises exactly from division by zero here). -/
inductive FloatVal where
  | fin (q : ℚ)
  | nonfinite
deriving DecidableEq

/-- IEEE elementwise division by the scalar `self.norm`: a zero divisor yields
a non-finite value (`±inf` for a nonzero numerator, `nan` for `0/0`), never an
exception; a nonzero divisor divides exactly. -/
def fdiv (a b : ℚ) : FloatVal :=
  if b = 0 then .nonfinite else .fin (a / b)

/-- The attribute state of a `ProbDistFunc` instance, plus the dynamically
dispatched `prob` method (subclasses override it; the base class uses
`baseProb`). -/
structure ProbDistFunc where
  min : ℚ
  max : ℚ
  norm : ℚ
  prob : List ℚ → List ℚ

/-- `ProbDistFunc.prob` of the base class: `np.ones(x.shape)`. -/
def baseProb (x : List ℚ) : List ℚ := x.map (fun _ => 1)

/-- `ProbDistFunc.normalization`: `self.max - self.min`. -/
def ProbDistFunc.normalization (s : ProbDistFunc) : ℚ := s.max - s.min

/-- `ProbDistFunc.__init__(pdf_min, pdf_max, normalized=False)`:
stores the bounds, then `self.norm = self.normalization()` if `normalized`
else `self.norm = 1`.  No validation of any kind is performed. -/
def ProbDistFunc.init (pdf_min pdf_max : ℚ) (normalized : Bool := false) :
    ProbDistFunc :=
  let s : ProbDistFunc :=
    { min := pdf_min, max := pdf_max, norm := 1, prob := baseProb }
  if normalized then { s with norm := s.normalization } else s

/-- The in-place masked assignment
`p[np.logical_or(x < self.min, x > self.max)] = 0`, as the value it leaves in
`p` (elementwise over the common length; the length check is in `call`). -/
def ProbDistFunc.mask (s : ProbDistFunc) (x p : List ℚ) : List ℚ :=
  (x.zip p).map (fun xp => if xp.1 < s.min ∨ xp.1 > s.max then 0 else xp.2)

/-- `ProbDistFunc.__call__(x)`:
`p = self.prob(x); p[np.logical_or(x < self.min, x > self.max)] = 0;
return p / self.norm`.
`none` models the `IndexError` numpy raises when the boolean mask (whose
length is `x.length`) does not match `p`'s length. -/
def ProbDistFunc.call (s : ProbDistFunc) (x : List ℚ) : Option (List FloatVal) :=
  let p := s.prob x
  if p.length = x.length then
    some ((s.mask x p).map (fun v => fdiv v s.norm))
  else
    none

/-! ### Full float model

The safety claim ranges over arbitrary float bounds and inputs, including
non-finite ones, which `ℚ` cannot represent.  `FV` is a full IEEE double
model (up to the sign of zero, which nothing here observes): a finite exact
rational, the two infinities, or `nan`; `FV.lt`, `FV.sub` and `FV.div` are
the IEEE comparisons and arithmetic the code performs on them.  The
`ProbDistFuncF` definitions repeat the embedding above over `FV`. -/

/-- A double value in full: finite, `inf`, `-inf` or `nan`. -/
inductive FV where
  | fin (q : ℚ)
  | inf
  | neginf
  | nan
deriving DecidableEq

/-- IEEE `<`: comparisons with `nan` are false; `-inf` is below everything
else; `inf` is above everything else. -/
def FV.lt : FV → FV → Bool
  | nan, _ => false
  | _, nan => false
  | fin a, fin b => a < b
  | fin _, inf => true
  | fin _, neginf => false
  | inf, _ => false
  | neginf, neginf => false
  | neginf, _ => true

/-- IEEE subtraction (for `self.max - self.min`): `nan` is absorbing,
`inf - inf = nan`, infinities otherwise dominate. -/
def FV.sub : FV → FV → FV
  | nan, _ => nan
  | _, nan => nan
  | inf, inf => nan
  | inf, _ => inf
  | neginf, neginf => nan
  | neginf, _ => neginf
  | fin _, inf => neginf
  | fin _, neginf => inf
  | fin a, fin b => fin (a - b)

/-- IEEE division by the scalar `self.norm` (the divisor's zero is `+0`, the
only zero `ℚ` has): `nan` is absorbing, `inf/inf = nan`, division by zero
gives `nan` for numerator `0` and a signed infinity otherwise, and a finite
value divided by an infinity gives `0`.  No case raises. -/
def FV.div : FV → FV → FV
  | nan, _ => nan
  | _, nan => nan
  | inf, inf => nan
  | inf, neginf => nan
  | neginf, inf => nan
  | neginf, neginf => nan
  | inf, fin b => if b < 0 then neginf else inf
  | neginf, fin b => if b < 0 then inf else neginf
  | fin _, inf => fin 0
  | fin _, neginf => fin 0
  | fin a, fin b =>
      if b = 0 then
        if a = 0 then nan else if 0 < a then inf else neginf
      else fin (a / b)

/-- Finiteness predicate on a double value. -/
def FV.isFinite : FV → Bool
  | fin _ => true
  | _ => false

/-- The attribute state of an instance, over full floats. -/
structure ProbDistFuncF where
  min : FV
  max : FV
  norm : FV
  prob : List FV → List FV

/-- Base-class `prob`, `np.ones(x.shape)`, over full floats: the constant
`1.0`, whatever the input values are. -/
def baseProbF (x : List FV) : List FV := x.map (fun _ => .fin 1)

/-- `normalization`, `self.max - self.min`, over full floats. -/
def ProbDistFuncF.normalization (s : ProbDistFuncF) : FV := s.max.sub s.min

/-- `__init__` over full floats: identical to `ProbDistFunc.init`, with no
validation of finiteness or ordering — construction always succeeds. -/
def ProbDistFuncF.init (pdf_min pdf_max : FV) (normalized : Bool := false) :
    ProbDistFuncF :=
  let s : ProbDistFuncF :=
    { min := pdf_min, max := pdf_max, norm := .fin 1, prob := baseProbF }
  if normalized then { s with norm := s.normalization } else s

/-- The masked assignment over full floats: `x < self.min` and
`x > self.max` are IEEE comparisons (false on `nan`). -/
def ProbDistFuncF.mask (s : ProbDistFuncF) (x p : List FV) : List FV :=
  (x.zip p).map (fun xp =>
    if FV.lt xp.1 s.min || FV.lt s.max xp.1 then .fin 0 else xp.2)

/-- `__call__` over full floats; as before, `none` models the `IndexError`
on a mask/array length mismatch, the only exception numpy can raise here. -/
def ProbDistFuncF.call (s : ProbDistFuncF) (x : List FV) : Option (List FV) :=
  let p := s.prob x
  if p.length = x.length then
    some ((s.mask x p).map (fun v => v.div s.norm))
  else
    none

/-! ### Heap model for the aliasing claim

`__call__` mutates the array `p` in place (`p[mask] = 0`); the claim that the
input `x` is untouched rests on `np.ones` allocating a fresh array.  We model
numpy arrays as heap cells: the heap is a list of arrays, a reference is an
index, allocation appends, and the masked assignment writes to `p`'s cell. -/

/-- The array heap: cell `i` holds the contents of array number `i`. -/
abbrev Heap := List (List ℚ)

/-- Read the array at reference `r` (unallocated references read `[]`). -/
def Heap.read (h : Heap) (r : ℕ) : List ℚ := h.getD r []

/-- Overwrite the array at reference `r`. -/
def Heap.write (h : Heap) (r : ℕ) (v : List ℚ) : Heap := h.set r v

/-- Allocate a fresh array holding `v`; returns the new heap and the fresh
reference. -/
def Heap.alloc (h : Heap) (v : List ℚ) : Heap × ℕ := (h ++ [v], h.length)

/-- Base-class `prob` on the heap: `np.ones(x.shape)` reads `x`'s shape and
allocates a fresh ones array. -/
def probH (h : Heap) (xr : ℕ) : Heap × ℕ :=
  h.alloc ((h.read xr).map (fun _ => 1))

/-- Base-class `__call__` on the heap, with the instance state threaded
explicitly: `p = self.prob(x)` allocates, the masked assignment writes into
`p`'s cell, and `p / self.norm` allocates the returned array.  The body never
assigns to `self`, so the instance comes back as it went in. -/
def callH (s : ProbDistFunc) (h : Heap) (xr : ℕ) :
    ProbDistFunc × Heap × List FloatVal :=
  let hp := probH h xr
  let h1 := hp.1
  let pr := hp.2
  let h2 := Heap.write h1 pr (s.mask (Heap.read h1 xr) (Heap.read h1 pr))
  (s, h2, (Heap.read h2 pr).map (fun v => fdiv v s.norm))

/-! ### Basic lemmas about the embedding -/

@[simp] lemma init_min (a b : ℚ) (n : Bool) : (ProbDistFunc.init a b n).min = a := by
  cases n <;> rfl

@[simp] lemma init_max (a b : ℚ) (n : Bool) : (ProbDistFunc.init a b n).max = b := by
  cases n <;> rfl

@[simp] lemma init_prob (a b : ℚ) (n : Bool) : (ProbDistFunc.init a b n).prob = baseProb := by
  cases n <;> rfl

@[simp] lemma init_norm (a b : ℚ) (n : Bool) :
    (ProbDistFunc.init a b n).norm = if n then b - a else 1 := by
  cases n <;> rfl

lemma fdiv_zero_left {b : ℚ} (hb : b ≠ 0) : fdiv 0 b = .fin 0 := by
  simp [fdiv, hb]

lemma fdiv_one (a : ℚ) : fdiv a 1 = .fin a := by
  norm_num [fdiv]

lemma fdiv_by_zero (a : ℚ) : fdiv a 0 = .nonfinite := by
  simp [fdiv]

/-- The mask applied to the base-class ones array, in closed form. -/
lemma mask_base (s : ProbDistFunc) (x : List ℚ) :
    s.mask x (baseProb x) =
      x.map (fun xi => if xi < s.min ∨ xi > s.max then 0 else 1) := by
  induction x with
  | nil => rfl
  | cons a t ih =>
      simp only [ProbDistFunc.mask, baseProb, List.map_cons, List.zip_cons_cons] at ih ⊢
      rw [ih]

/-- `__call__` on a base-class instance, in closed form: it succeeds and maps
each input through mask-then-divide, in order. -/
lemma call_init_eq (a b : ℚ) (n : Bool) (x : List ℚ) :
    (ProbDistFunc.init a b n).call x =
      some (x.map (fun xi =>
        fdiv (if xi < a ∨ b < xi then 0 else 1) (ProbDistFunc.init a b n).norm)) := by
  have hlen : (baseProb x).length = x.length := List.length_map _ _
  have hmask := mask_base (ProbDistFunc.init a b n) x
  rw [init_min, init_max] at hmask
  simp only [ProbDistFunc.call, init_prob, hlen, eq_self_iff_true, if_true,
    hmask, List.map_map]
  rfl

/-- Element `i` of the masked array, for any instance whose `prob` returned an
array of the right length. -/
lemma mask_get? (s : ProbDistFunc) (x p : List ℚ) (i : ℕ)
    (hi : i < x.length) (hlen : p.length = x.length) :
    (s.mask x p)[i]? =
      some (if x.getD i 0 < s.min ∨ x.getD i 0 > s.max then 0 else p.getD i 0) := by
  induction x generalizing p i with
  | nil => exact absurd hi (by simp)
  | cons a t ih =>
      cases p with
      | nil => exact absurd hlen (by simp)
      | cons q r =>
          cases i with
          | zero => simp [ProbDistFunc.mask]
          | succ j =>
              have hj : j < t.length := by simpa using hi
              have hr : r.length = t.length := by simpa using hlen
              simpa [ProbDistFunc.mask, List.getD] using ih r j hj hr

/-- When every input lies inside the closed interval, the masked assignment
leaves `p` unchanged. -/
lemma mask_of_inbounds (s : ProbDistFunc) (x p : List ℚ)
    (hlen : p.length = x.length)
    (hin : ∀ xi ∈ x, s.min ≤ xi ∧ xi ≤ s.max) :
    s.mask x p = p := by
  induction x generalizing p with
  | nil =>
      cases p with
      | nil => rfl
      | cons q r => exact absurd hlen (by simp)
  | cons a t ih =>
      cases p with
      | nil => exact absurd hlen (by simp)
      | cons q r =>
          have ha := hin a (by simp)
          have hr : r.length = t.length := by simpa using hlen
          have hnot : ¬(a < s.min ∨ a > s.max) := by
            push_neg
            exact ⟨ha.1, ha.2⟩
          simp only [ProbDistFunc.mask, List.zip_cons_cons, List.map_cons,
            if_neg hnot]
          exact congrArg (List.cons q) (ih r hr (fun xi hxi => hin xi (by simp [hxi])))

/-- Successful calls are exactly the length-matched ones, and their output is
the masked-and-divided array. -/
lemma call_eq_some (s : ProbDistFunc) (x : List ℚ) (out : List FloatVal)
    (hok : s.call x = some out) :
    (s.prob x).length = x.length ∧
      out = (s.mask x (s.prob x)).map (fun v => fdiv v s.norm) := by
  by_cases h : (s.prob x).length = x.length
  · refine ⟨h, ?_⟩
    rw [ProbDistFunc.call, if_pos h] at hok
    exact (Option.some.inj hok).symm
  · rw [ProbDistFunc.call, if_neg h] at hok
    exact absurd hok (by simp)

@[simp] lemma initF_min (a b : FV) (n : Bool) :
    (ProbDistFuncF.init a b n).min = a := by
  cases n <;> rfl

@[simp] lemma initF_max (a b : FV) (n : Bool) :
    (ProbDistFuncF.init a b n).max = b := by
  cases n <;> rfl

@[simp] lemma initF_prob (a b : FV) (n : Bool) :
    (ProbDistFuncF.init a b n).prob = baseProbF := by
  cases n <;> rfl

/-- The full-float mask applied to the base-class ones array, in closed
form. -/
lemma maskF_base (s : ProbDistFuncF) (x : List FV) :
    s.mask x (baseProbF x) =
      x.map (fun xi =>
        if FV.lt xi s.min || FV.lt s.max xi then FV.fin 0 else FV.fin 1) := by
  induction x with
  | nil => rfl
  | cons a t ih =>
      simp only [ProbDistFuncF.mask, baseProbF, List.map_cons,
        List.zip_cons_cons] at ih ⊢
      rw [ih]

/-- Full-float `__call__` on a base-class instance, in closed form. -/
lemma callF_init_eq (a b : FV) (n : Bool) (x : List FV) :
    (ProbDistFuncF.init a b n).call x =
      some (x.map (fun xi =>
        FV.div (if FV.lt xi a || FV.lt b xi then FV.fin 0 else FV.fin 1)
          (ProbDistFuncF.init a b n).norm)) := by
  have hlen : (baseProbF x).length = x.length := List.length_map _ _
  have hmask := maskF_base (ProbDistFuncF.init a b n) x
  rw [initF_min, initF_max] at hmask
  simp only [ProbDistFuncF.call, initF_prob, hlen, eq_self_iff_true, if_true,
    hmask, List.map_map]
  rfl

/-! ### Claims -/

/-- Claim C1, counterexample: the claim says every out-of-bounds element of
the result of `__call__` is exactly `0`, for every instance.  For the instance
`ProbDistFunc(1, 1, normalized=True)` the stored normalization constant is
`1 - 1 = 0`, and at the input `[2]` (strictly above `max`) the masked value
`0` is divided by `0`, so numpy returns `nan` — a non-finite value, not `0`. -/
theorem C1_counterexample :
    (ProbDistFunc.init 1 1 true).call [2] = some [FloatVal.nonfinite] ∧
    (2 : ℚ) > (ProbDistFunc.init 1 1 true).max ∧
    FloatVal.nonfinite ≠ FloatVal.fin 0 := by
  refine ⟨?_, by norm_num, by simp⟩
  rw [call_init_eq]
  norm_num [fdiv]

/-- Claim C1, amended: for every instance whose stored normalization constant
is nonzero, every element of a successful `__call__(x)` whose input value is
strictly below `self.min` or strictly above `self.max` equals exactly `0`,
regardless of what `prob` returned at that point. -/
theorem C1_amended (s : ProbDistFunc) (x : List ℚ) (out : List FloatVal)
    (hok : s.call x = some out) (hnorm : s.norm ≠ 0)
    (i : ℕ) (hi : i < x.length)
    (hout : x.getD i 0 < s.min ∨ x.getD i 0 > s.max) :
    out[i]? = some (FloatVal.fin 0) := by
  obtain ⟨hlen, hout_eq⟩ := call_eq_some s x out hok
  subst hout_eq
  rw [List.getElem?_map, mask_get? s x (s.prob x) i hi hlen, if_pos hout]
  simp [fdiv, hnorm]

/-- Claim C1, witness: the amended theorem applied to
`ProbDistFunc(0, 2, normalized=True)` at input `[3]`. -/
theorem C1_witness :
    (ProbDistFunc.init 0 2 true).call [3] = some [FloatVal.fin 0] ∧
    ([FloatVal.fin 0] : List FloatVal)[0]? = some (FloatVal.fin 0) :=
  ⟨by rw [call_init_eq]; norm_num [fdiv],
   C1_amended (ProbDistFunc.init 0 2 true) [3] [FloatVal.fin 0]
     (by rw [call_init_eq]; norm_num [fdiv]) (by norm_num) 0 (by norm_num)
     (by norm_num [List.getD])⟩

/-- Claim C2: for the base `ProbDistFunc(pdf_min=0, pdf_max=2,
normalized=True)`, the stored normalization constant is `2` and
`__call__([0.5, 1.0, 1.5, 2.5])` returns exactly `[0.5, 0.5, 0.5, 0.0]`. -/
theorem C2 :
    (ProbDistFunc.init 0 2 true).norm = 2 ∧
    (ProbDistFunc.init 0 2 true).call [1/2, 1, 3/2, 5/2] =
      some [FloatVal.fin (1/2), FloatVal.fin (1/2), FloatVal.fin (1/2),
        FloatVal.fin 0] := by
  refine ⟨by norm_num, ?_⟩
  rw [call_init_eq]
  norm_num [fdiv]

/-- Claim C3, counterexample: the by-name evaluation method `prob` and the
call operator `__call__` are not equivalent.  For the base
`ProbDistFunc(0, 2)` at input `[2.5]`, `prob` returns `[1]` (no masking)
while `__call__` returns `[0]` (the out-of-bounds point masked). -/
theorem C3_counterexample :
    ((ProbDistFunc.init 0 2 false).prob [5/2]).map FloatVal.fin =
      [FloatVal.fin 1] ∧
    (ProbDistFunc.init 0 2 false).call [5/2] = some [FloatVal.fin 0] ∧
    (ProbDistFunc.init 0 2 false).call [5/2] ≠
      some (((ProbDistFunc.init 0 2 false).prob [5/2]).map FloatVal.fin) := by
  have hprob : ((ProbDistFunc.init 0 2 false).prob [5/2]).map FloatVal.fin =
      [FloatVal.fin 1] := by
    simp [init_prob, baseProb]
  have hcall : (ProbDistFunc.init 0 2 false).call [5/2] =
      some [FloatVal.fin 0] := by
    rw [call_init_eq]
    norm_num [fdiv]
  refine ⟨hprob, hcall, ?_⟩
  rw [hprob, hcall]
  simp

/-- Claim C3, amended: `__call__` equals `prob` followed by masking and
division by the stored normalization constant; the two coincide exactly on
instances with normalization constant `1` and inputs lying entirely inside
`[min, max]` (for `prob` overrides honouring the same-length contract). -/
theorem C3_amended (s : ProbDistFunc) (x : List ℚ)
    (hlen : (s.prob x).length = x.length) (hnorm : s.norm = 1)
    (hin : ∀ xi ∈ x, s.min ≤ xi ∧ xi ≤ s.max) :
    s.call x = some ((s.prob x).map FloatVal.fin) := by
  simp only [ProbDistFunc.call]
  rw [if_pos hlen, mask_of_inbounds s x (s.prob x) hlen hin, hnorm]
  simp [fdiv]

/-- Claim C3, witness: the amended theorem applied to the base
`ProbDistFunc(0, 2)` at input `[1]`. -/
theorem C3_witness :
    (ProbDistFunc.init 0 2 false).call [1] =
      some (((ProbDistFunc.init 0 2 false).prob [1]).map FloatVal.fin) :=
  C3_amended (ProbDistFunc.init 0 2 false) [1] (by simp [init_prob, baseProb])
    (by norm_num) (by norm_num)

/-- Claim C4: constructing with inverted bounds (`pdf_min > pdf_max`) yields
an instance whose `__call__` returns `0` at every element of every input
array, with no fault raised — every point fails the bounds test, and the
normalization constant (`1`, or the negative `pdf_max - pdf_min`) is nonzero,
so every masked `0` divides to exactly `0`. -/
theorem C4 (a b : ℚ) (n : Bool) (x : List ℚ) (h : b < a) :
    (ProbDistFunc.init a b n).call x =
      some (x.map (fun _ => FloatVal.fin 0)) := by
  rw [call_init_eq]
  refine congrArg some (List.map_congr_left ?_)
  intro xi _
  have hcond : xi < a ∨ b < xi := by
    rcases le_or_lt a xi with hax | hxa
    · exact Or.inr (lt_of_lt_of_le h hax)
    · exact Or.inl hxa
  rw [if_pos hcond]
  have hnorm : (ProbDistFunc.init a b n).norm ≠ 0 := by
    rw [init_norm]
    cases n
    · norm_num
    · simpa using sub_ne_zero.mpr h.ne
  exact fdiv_zero_left hnorm

/-- Claim C4, witness: the theorem applied to `ProbDistFunc(2, 0)` at input
`[1, 3]`. -/
theorem C4_witness :
    (0 : ℚ) < 2 ∧
    (ProbDistFunc.init 2 0 false).call [1, 3] =
      some (([1, 3] : List ℚ).map (fun _ => FloatVal.fin 0)) :=
  ⟨by norm_num, C4 2 0 false [1, 3] (by norm_num)⟩

/-- Claim C5: the normalization constant is computed exactly once, at
construction (`normalization()` if `normalized=True`, else `1`); assigning a
new `min` or `max` afterwards leaves the stored `norm` unchanged, and
`__call__` never changes any instance field. -/
theorem C5 (a b m : ℚ) (n : Bool) (s : ProbDistFunc) (h : Heap) (xr : ℕ) :
    ({ ProbDistFunc.init a b n with min := m }).norm =
      (ProbDistFunc.init a b n).norm ∧
    ({ ProbDistFunc.init a b n with max := m }).norm =
      (ProbDistFunc.init a b n).norm ∧
    (callH s h xr).1 = s ∧
    (ProbDistFunc.init a b true).norm =
      ProbDistFunc.normalization
        { min := a, max := b, norm := 1, prob := baseProb } ∧
    (ProbDistFunc.init a b false).norm = 1 :=
  ⟨rfl, rfl, rfl, rfl, rfl⟩

/-- Claim C6, counterexample: the claim says `x[i] == self.min` is never
masked, for every instance.  With inverted bounds, `ProbDistFunc(2, 0)`, the
input value `2 == min` satisfies `x > max`, so it IS masked: the result is
`0`, not `prob(x)[0] / norm = 1 / 1 = 1`. -/
theorem C6_counterexample :
    (2 : ℚ) = (ProbDistFunc.init 2 0 false).min ∧
    (ProbDistFunc.init 2 0 false).call [2] = some [FloatVal.fin 0] ∧
    FloatVal.fin 0 ≠
      fdiv (((ProbDistFunc.init 2 0 false).prob [2]).getD 0 0)
        (ProbDistFunc.init 2 0 false).norm := by
  refine ⟨by norm_num, ?_, ?_⟩
  · rw [call_init_eq]
    norm_num [fdiv]
  · norm_num [init_prob, init_norm, baseProb, fdiv, List.getD]

/-- Claim C6, amended: provided `min ≤ max`, bounds are inclusive — every
element with `x[i] == self.min` or `x[i] == self.max` is not masked and
receives `prob(x)[i]` divided by the stored normalization constant. -/
theorem C6_amended (s : ProbDistFunc) (x : List ℚ) (out : List FloatVal)
    (hok : s.call x = some out) (hbounds : s.min ≤ s.max)
    (i : ℕ) (hi : i < x.length)
    (hb : x.getD i 0 = s.min ∨ x.getD i 0 = s.max) :
    out[i]? = some (fdiv ((s.prob x).getD i 0) s.norm) := by
  obtain ⟨hlen, hout_eq⟩ := call_eq_some s x out hok
  subst hout_eq
  have hnot : ¬(x.getD i 0 < s.min ∨ x.getD i 0 > s.max) := by
    push_neg
    rcases hb with hb | hb
    · exact ⟨le_of_eq hb.symm, by rw [hb]; exact hbounds⟩
    · exact ⟨by rw [hb]; exact hbounds, le_of_eq hb⟩
  rw [List.getElem?_map, mask_get? s x (s.prob x) i hi hlen, if_neg hnot]
  simp

/-- Claim C6, witness: the amended theorem applied to
`ProbDistFunc(0, 2, normalized=True)` at the input `[2]`, whose single
element equals `max` and is not masked. -/
theorem C6_witness :
    (ProbDistFunc.init 0 2 true).call [2] = some [FloatVal.fin (1/2)] ∧
    ([FloatVal.fin (1/2)] : List FloatVal)[0]? =
      some (fdiv (((ProbDistFunc.init 0 2 true).prob [2]).getD 0 0)
        (ProbDistFunc.init 0 2 true).norm) :=
  ⟨by rw [call_init_eq]; norm_num [fdiv],
   C6_amended (ProbDistFunc.init 0 2 true) [2] [FloatVal.fin (1/2)]
     (by rw [call_init_eq]; norm_num [fdiv]) (by norm_num) 0 (by norm_num)
     (by norm_num [List.getD])⟩

/-- Claim C7: for the base `ProbDistFunc(pdf_min=0, pdf_max=2)` with
`normalized` left at its default `False`, the stored normalization constant is
`1` and `__call__([0.5, 1.0, 1.5, 2.5])` returns exactly `[1, 1, 1, 0]`. -/
theorem C7 :
    (ProbDistFunc.init 0 2).norm = 1 ∧
    (ProbDistFunc.init 0 2).call [1/2, 1, 3/2, 5/2] =
      some [FloatVal.fin 1, FloatVal.fin 1, FloatVal.fin 1, FloatVal.fin 0] := by
  refine ⟨by norm_num, ?_⟩
  rw [call_init_eq]
  norm_num [fdiv]

/-- Claim C8: for every base instance and input of any length, `__call__`
succeeds and returns exactly one output per input, in input order (the output
is the elementwise image of the input list, so lengths agree for `n = 0`,
`1`, and any `n`). -/
theorem C8 (a b : ℚ) (n : Bool) (x : List ℚ) :
    (ProbDistFunc.init a b n).call x =
      some (x.map (fun xi =>
        fdiv (if xi < a ∨ b < xi then 0 else 1)
          (ProbDistFunc.init a b n).norm)) ∧
    (x.map (fun xi =>
      fdiv (if xi < a ∨ b < xi then 0 else 1)
        (ProbDistFunc.init a b n).norm)).length = x.length :=
  ⟨call_init_eq a b n x, by simp⟩

/-- Claim C9: over the full float model, construction succeeds for every
choice of bounds — finite, infinite, `nan`, or inverted — and every flag,
and `__call__` on a base instance always returns a result rather than
raising, for every input array including one holding non-finite values;
when the stored normalization constant is `0`, every output element is
non-finite (`nan`/`inf` division-by-zero semantics), not a raised error. -/
theorem C9 (a b : FV) (n : Bool) (x : List FV) :
    ∃ out, (ProbDistFuncF.init a b n).call x = some out ∧
      ((ProbDistFuncF.init a b n).norm = FV.fin 0 →
        ∀ v ∈ out, v.isFinite = false) := by
  refine ⟨_, callF_init_eq a b n x, ?_⟩
  intro hnorm v hv
  rw [List.mem_map] at hv
  obtain ⟨xi, _, hxi⟩ := hv
  rw [← hxi, hnorm]
  by_cases hc : (FV.lt xi a || FV.lt b xi) = true
  · rw [if_pos hc]
    norm_num [FV.div, FV.isFinite]
  · rw [if_neg hc]
    norm_num [FV.div, FV.isFinite]

/-- Claim C9, witness: the theorem instantiated once at
`ProbDistFunc(1, 1, normalized=True)` (stored constant `0`) with the input
`[2.0, nan]`, and once at the non-finite inverted bounds `(inf, nan)` with
the input `[-inf]`. -/
theorem C9_witness :
    (∃ out, (ProbDistFuncF.init (FV.fin 1) (FV.fin 1) true).call
        [FV.fin 2, FV.nan] = some out ∧
      ((ProbDistFuncF.init (FV.fin 1) (FV.fin 1) true).norm = FV.fin 0 →
        ∀ v ∈ out, v.isFinite = false)) ∧
    (∃ out, (ProbDistFuncF.init FV.inf FV.nan false).call [FV.neginf] =
        some out ∧
      ((ProbDistFuncF.init FV.inf FV.nan false).norm = FV.fin 0 →
        ∀ v ∈ out, v.isFinite = false)) :=
  ⟨C9 (FV.fin 1) (FV.fin 1) true [FV.fin 2, FV.nan],
   C9 FV.inf FV.nan false [FV.neginf]⟩

/-- The heap after `__call__`: `prob` allocates the fresh ones array at
reference `h.length`, and the masked assignment writes to that reference. -/
lemma read_write_ne (h : Heap) (r r' : ℕ) (v : List ℚ) (hne : r' ≠ r) :
    (h.write r v).read r' = h.read r' := by
  induction h generalizing r r' with
  | nil => rfl
  | cons a t ih =>
      cases r with
      | zero =>
          cases r' with
          | zero => exact absurd rfl hne
          | succ j => rfl
      | succ i =>
          cases r' with
          | zero => rfl
          | succ j => exact ih i j (fun hh => hne (by rw [hh]))

/-- Reading below the old length is unaffected by an allocation. -/
lemma read_append_lt (h : Heap) (v : List ℚ) (r : ℕ) (hr : r < h.length) :
    (h ++ [v]).read r = h.read r := by
  induction h generalizing r with
  | nil => exact absurd hr (by simp)
  | cons a t ih =>
      cases r with
      | zero => rfl
      | succ j => exact ih j (by simpa using hr)

/-- Claim C10: `__call__` is effect-free on its input and on the instance:
the zero-mask is written into the freshly allocated array returned by `prob`
(reference `h.length`), never into `x`'s cell, so the input array reads back
unchanged, and the instance fields `min`, `max`, `norm` are untouched. -/
theorem C10 (s : ProbDistFunc) (h : Heap) (xr : ℕ) (hx : xr < h.length) :
    Heap.read (callH s h xr).2.1 xr = Heap.read h xr ∧ (callH s h xr).1 = s := by
  constructor
  · have heq : (callH s h xr).2.1 =
        Heap.write (h ++ [(Heap.read h xr).map (fun _ => 1)]) h.length
          (s.mask (Heap.read (h ++ [(Heap.read h xr).map (fun _ => 1)]) xr)
            (Heap.read (h ++ [(Heap.read h xr).map (fun _ => 1)])
              h.length)) := rfl
    rw [heq, read_write_ne _ _ _ _ (Nat.ne_of_lt hx),
      read_append_lt _ _ _ hx]
  · rfl

/-- Claim C10, witness: the theorem applied to
`ProbDistFunc(0, 2, normalized=True)` with a one-array heap holding the
input `[1, 2]` at reference `0`. -/
theorem C10_witness :
    (0 : ℕ) < ([[(1:ℚ), 2]] : Heap).length ∧
    Heap.read (callH (ProbDistFunc.init 0 2 true) [[(1:ℚ), 2]] 0).2.1 0 =
      Heap.read ([[(1:ℚ), 2]] : Heap) 0 ∧
    (callH (ProbDistFunc.init 0 2 true) [[(1:ℚ), 2]] 0).1 =
      ProbDistFunc.init 0 2 true :=
  ⟨by simp,
   (C10 (ProbDistFunc.init 0 2 true) [[(1:ℚ), 2]] 0 (by simp)).1,
   (C10 (ProbDistFunc.init 0 2 true) [[(1:ℚ), 2]] 0 (by simp)).2⟩

end ArsenalGear
